import Mathlib

/-!
Verification development for the `doubao-translator-rust` gateway
(`src/main.rs`).  Text is modelled as `List Char`, matching the Rust
code's explicit `chars()` iteration; timestamps (`Instant`) are `Nat`.
Each definition is a shallow embedding of the correspondingly named
item of `src/main.rs`.
-/

/-- Abbreviation turning a string literal into the `List Char` text model. -/
def str (s : String) : List Char := s.data

/-- The paragraph separator `"\n\n"` used by `split_text`. -/
def nl2 : List Char := ['\n', '\n']

/-! ## Chunker (`split_by_chars`, `split_text`, lines 438-504) -/

/-- Loop of `split_by_chars` (lines 489-497): accumulate characters into
`current`, flushing whenever `count` reaches `max_chars`; the final
non-empty remainder is also flushed (lines 499-501). -/
def splitByCharsGo (maxChars : Nat) : List Char → List Char → Nat → List (List Char)
  | [], current, _ => if current = [] then [] else [current]
  | ch :: rest, current, count =>
    if maxChars ≤ count + 1 then (current ++ [ch]) :: splitByCharsGo maxChars rest [] 0
    else splitByCharsGo maxChars rest (current ++ [ch]) (count + 1)

/-- `split_by_chars` (lines 484-504): hard-split a text into
`max_chars`-sized pieces at character boundaries. -/
def split_by_chars (text : List Char) (maxChars : Nat) : List (List Char) :=
  splitByCharsGo maxChars text [] 0

/-- Rust `text.split("\n\n")` (line 443): split at each leftmost,
non-overlapping occurrence of the two-newline separator. -/
def splitOnPar : List Char → List (List Char)
  | [] => [[]]
  | [c] => [[c]]
  | c1 :: c2 :: rest =>
    if c1 = '\n' ∧ c2 = '\n' then [] :: splitOnPar rest
    else (c1 :: (splitOnPar (c2 :: rest)).headI) :: (splitOnPar (c2 :: rest)).tail

/-- Rust `Vec::join(sep)` / the reassembly of pieces with a separator. -/
def joinSep (sep : List Char) : List (List Char) → List Char
  | [] => []
  | [x] => x
  | x :: xs => x ++ sep ++ joinSep sep xs

/-- Paragraph loop of `split_text` (lines 448-479).  `current` is the
chunk being packed and `currentLen` the running character count kept by
the Rust code; oversized paragraphs flush `current` and are hard-split,
otherwise paragraphs are greedily packed with a `"\n\n"` joiner. -/
def splitTextGo (maxChars : Nat) : List (List Char) → List Char → Nat → List (List Char)
  | [], current, _ => if current = [] then [] else [current]
  | p :: ps, current, currentLen =>
    if maxChars < p.length then
      (if current = [] then [] else [current])
        ++ split_by_chars p maxChars
        ++ splitTextGo maxChars ps [] 0
    else
      let extra := if current = [] then 0 else 2
      if current ≠ [] ∧ maxChars < currentLen + extra + p.length then
        current :: splitTextGo maxChars ps p p.length
      else
        splitTextGo maxChars ps (if current = [] then p else current ++ nl2 ++ p)
          (currentLen + extra + p.length)

/-- `split_text` (lines 438-482): texts of at most `max_chars` characters
are returned whole; longer texts are split on `"\n\n"` paragraph
boundaries and greedily packed. -/
def split_text (text : List Char) (maxChars : Nat) : List (List Char) :=
  if text.length ≤ maxChars then [text]
  else splitTextGo maxChars (splitOnPar text) [] 0

/-! ### Chunker lemmas -/

theorem splitOnPar_ne_nil (l : List Char) : splitOnPar l ≠ [] := by
  induction l using splitOnPar.induct with
  | case1 => simp [splitOnPar]
  | case2 c => simp [splitOnPar]
  | case3 c1 c2 rest h ih => simp [splitOnPar, h]
  | case4 c1 c2 rest h ih => simp [splitOnPar, h]

theorem joinSep_cons (sep x : List Char) (xs : List (List Char)) (h : xs ≠ []) :
    joinSep sep (x :: xs) = x ++ sep ++ joinSep sep xs := by
  rcases xs with _ | ⟨y, ys⟩
  · exact absurd rfl h
  · rfl

theorem joinSep_splitOnPar (l : List Char) : joinSep nl2 (splitOnPar l) = l := by
  induction l using splitOnPar.induct with
  | case1 => rfl
  | case2 c => rfl
  | case3 c1 c2 rest h ih =>
    obtain ⟨h1, h2⟩ := h
    subst h1; subst h2
    have e : splitOnPar ('\n' :: '\n' :: rest) = [] :: splitOnPar rest := by
      rw [splitOnPar]; simp
    rw [e, joinSep_cons _ _ _ (splitOnPar_ne_nil rest), ih]
    rfl
  | case4 c1 c2 rest h ih =>
    have e : splitOnPar (c1 :: c2 :: rest) =
        (c1 :: (splitOnPar (c2 :: rest)).headI) :: (splitOnPar (c2 :: rest)).tail := by
      rw [splitOnPar, if_neg h]
    rcases hsp : splitOnPar (c2 :: rest) with _ | ⟨x, xs⟩
    · exact absurd hsp (splitOnPar_ne_nil _)
    · rw [hsp] at ih e
      rw [e]
      rcases xs with _ | ⟨y, ys⟩
      · simp only [List.headI, List.tail_cons, joinSep] at ih ⊢
        rw [ih]
      · simp only [List.headI, List.tail_cons]
        rw [joinSep_cons _ _ _ (by simp)] at ih
        rw [joinSep_cons _ _ _ (by simp), List.cons_append, List.cons_append]
        exact congrArg (c1 :: ·) ih

theorem splitOnPar_no_newline (l : List Char) (h : '\n' ∉ l) : splitOnPar l = [l] := by
  induction l using splitOnPar.induct with
  | case1 => rfl
  | case2 c => rfl
  | case3 c1 c2 rest hc ih => exact absurd (by simp [hc.1]) h
  | case4 c1 c2 rest hc ih =>
    have h2 : '\n' ∉ c2 :: rest := fun hm => h (List.mem_cons_of_mem _ hm)
    rw [splitOnPar, if_neg hc, ih h2]
    simp [List.headI]

theorem splitTextGo_nil (maxChars : Nat) (current : List Char) (n : Nat) :
    splitTextGo maxChars [] current n = if current = [] then [] else [current] := rfl

theorem splitTextGo_oversize {maxChars : Nat} {p : List Char} {ps : List (List Char)}
    {current : List Char} {n : Nat} (h : maxChars < p.length) :
    splitTextGo maxChars (p :: ps) current n =
      (if current = [] then [] else [current])
        ++ split_by_chars p maxChars ++ splitTextGo maxChars ps [] 0 := by
  rw [splitTextGo, if_pos h]

theorem splitTextGo_overflow {maxChars : Nat} {p : List Char} {ps : List (List Char)}
    {current : List Char} {n : Nat} (h1 : ¬ maxChars < p.length) (hc : current ≠ [])
    (h2 : maxChars < n + 2 + p.length) :
    splitTextGo maxChars (p :: ps) current n = current :: splitTextGo maxChars ps p p.length := by
  rw [splitTextGo, if_neg h1]
  simp only [if_neg hc]
  rw [if_pos ⟨hc, by simpa [hc] using h2⟩]

theorem splitTextGo_pack {maxChars : Nat} {p : List Char} {ps : List (List Char)}
    {current : List Char} {n : Nat} (h1 : ¬ maxChars < p.length)
    (h2 : ¬(current ≠ [] ∧ maxChars < n + (if current = [] then 0 else 2) + p.length)) :
    splitTextGo maxChars (p :: ps) current n =
      splitTextGo maxChars ps (if current = [] then p else current ++ nl2 ++ p)
        (n + (if current = [] then 0 else 2) + p.length) := by
  rw [splitTextGo, if_neg h1]
  simp only [if_neg h2]

theorem splitTextGo_ne_nil (maxChars : Nat) (ps : List (List Char)) :
    ∀ current currentLen, current ≠ [] → splitTextGo maxChars ps current currentLen ≠ [] := by
  induction ps with
  | nil => intro current n hc; rw [splitTextGo_nil, if_neg hc]; simp
  | cons p ps ih =>
    intro current n hc
    by_cases h1 : maxChars < p.length
    · rw [splitTextGo_oversize h1, if_neg hc]; simp
    · by_cases h2 : maxChars < n + 2 + p.length
      · rw [splitTextGo_overflow h1 hc h2]; simp
      · have hcond : ¬(current ≠ [] ∧ maxChars < n + (if current = [] then 0 else 2) + p.length) := by
          simp [hc]; omega
        rw [splitTextGo_pack h1 hcond]
        exact ih _ _ (by simp [hc])

theorem splitTextGo_join (maxChars : Nat) (ps : List (List Char))
    (hps : ∀ p ∈ ps, p ≠ [] ∧ p.length ≤ maxChars) :
    ∀ current n, current ≠ [] →
      joinSep nl2 (splitTextGo maxChars ps current n) = joinSep nl2 (current :: ps) := by
  induction ps with
  | nil => intro current n hc; rw [splitTextGo_nil, if_neg hc]
  | cons p ps ih =>
    intro current n hc
    obtain ⟨hpne, hple⟩ := hps p (by simp)
    have hps2 : ∀ q ∈ ps, q ≠ [] ∧ q.length ≤ maxChars := fun q hq => hps q (by simp [hq])
    have h1 : ¬ maxChars < p.length := not_lt.mpr hple
    by_cases h2 : maxChars < n + 2 + p.length
    · rw [splitTextGo_overflow h1 hc h2,
        joinSep_cons _ _ _ (splitTextGo_ne_nil _ _ _ _ hpne),
        ih hps2 p p.length hpne,
        joinSep_cons _ current (p :: ps) (by simp)]
    · have hcond : ¬(current ≠ [] ∧ maxChars < n + (if current = [] then 0 else 2) + p.length) := by
        simp [hc]; omega
      rw [splitTextGo_pack h1 hcond]
      simp only [if_neg hc]
      rw [ih hps2 _ _ (by simp [hc])]
      rcases ps with _ | ⟨q, qs⟩
      · simp [joinSep]
      · rw [joinSep_cons _ _ _ (by simp), joinSep_cons _ current _ (by simp),
          joinSep_cons _ p (q :: qs) (by simp)]
        simp [List.append_assoc]

/-- C2 is corrected: its round-trip premise must also require every
paragraph to be non-empty.  The text `"aaaa\n\n"` with `maxChars = 4`
satisfies the claim as stated (it exceeds 4 characters and each
`"\n\n"`-separated paragraph — `"aaaa"` and `""` — has at most 4
characters), yet `split_text` returns only `["aaaa"]`, so rejoining the
chunks with the packing separator does not reproduce the text: the
trailing empty paragraph is silently dropped. -/
theorem claim2_counterexample :
    4 < (str "aaaa\n\n").length ∧
    (∀ p ∈ splitOnPar (str "aaaa\n\n"), p.length ≤ 4) ∧
    split_text (str "aaaa\n\n") 4 = [str "aaaa"] ∧
    joinSep nl2 (split_text (str "aaaa\n\n") 4) ≠ str "aaaa\n\n" := by
  decide

/-- C2 (amended): for every text of at most `maxChars` characters,
`split_text` returns exactly `[text]`; and for every text exceeding
`maxChars` in which every `"\n\n"`-separated paragraph is non-empty and
has at most `maxChars` characters, concatenating the returned chunks
joined by the packing separator `"\n\n"` reproduces the text exactly. -/
theorem claim2_split_roundtrip (text : List Char) (maxChars : Nat) :
    (text.length ≤ maxChars → split_text text maxChars = [text]) ∧
    (maxChars < text.length →
      (∀ p ∈ splitOnPar text, p ≠ [] ∧ p.length ≤ maxChars) →
      joinSep nl2 (split_text text maxChars) = text) := by
  constructor
  · intro h; simp [split_text, h]
  · intro hgt hps
    rw [split_text, if_neg (not_le.mpr hgt)]
    rcases hsp : splitOnPar text with _ | ⟨p, ps⟩
    · exact absurd hsp (splitOnPar_ne_nil _)
    · have hp := hps p (by rw [hsp]; simp)
      have hps2 : ∀ q ∈ ps, q ≠ [] ∧ q.length ≤ maxChars := fun q hq =>
        hps q (by rw [hsp]; simp [hq])
      have h1 : ¬ maxChars < p.length := not_lt.mpr hp.2
      have hcond : ¬((([] : List Char)) ≠ [] ∧
          maxChars < 0 + (if ([] : List Char) = [] then 0 else 2) + p.length) := by simp
      rw [splitTextGo_pack h1 hcond]
      simp only [if_true, ite_true, reduceIte, Nat.zero_add, Nat.add_zero]
      rw [splitTextGo_join maxChars ps hps2 p _ hp.1, ← hsp, joinSep_splitOnPar]

theorem claim2_witness :
    joinSep nl2 (split_text (str "aaa\n\nbbb") 4) = str "aaa\n\nbbb" :=
  (claim2_split_roundtrip (str "aaa\n\nbbb") 4).2 (by decide) (by decide)

theorem splitByCharsGo_bound (maxChars : Nat) (l : List Char) :
    ∀ current count, count = current.length → count < maxChars →
      ∀ piece ∈ splitByCharsGo maxChars l current count, piece.length ≤ maxChars := by
  induction l with
  | nil =>
    intro current count hc hlt piece hp
    simp only [splitByCharsGo] at hp
    split at hp
    · simp at hp
    · simp at hp; subst hp; omega
  | cons ch rest ih =>
    intro current count hc hlt piece hp
    simp only [splitByCharsGo] at hp
    split at hp
    · rcases List.mem_cons.mp hp with h | h
      · subst h; simp [← hc]; omega
      · exact ih [] 0 rfl (by omega) piece h
    · exact ih (current ++ [ch]) (count + 1) (by simp [hc]) (by omega) piece hp

theorem splitByCharsGo_count (maxChars : Nat) (hm : 1 ≤ maxChars) (l : List Char) :
    ∀ current count, count = current.length → count < maxChars →
      (splitByCharsGo maxChars l current count).length
        = (count + l.length + maxChars - 1) / maxChars := by
  induction l with
  | nil =>
    intro current count hc hlt
    simp only [splitByCharsGo]
    split
    · rename_i he
      subst he; simp only [List.length_nil] at hc; subst hc
      simp only [List.length_nil, Nat.add_zero, Nat.zero_add, List.length_nil]
      rw [Nat.div_eq_of_lt (by omega)]
    · rename_i he
      have h1 : 1 ≤ count := by
        rcases current with _ | ⟨a, b⟩
        · exact absurd rfl he
        · simp [hc]
      simp only [List.length_cons, List.length_nil]
      have e : count + 0 + maxChars - 1 = (count - 1) + maxChars := by omega
      rw [e, Nat.add_div_right _ (by omega), Nat.div_eq_of_lt (by omega)]
  | cons ch rest ih =>
    intro current count hc hlt
    simp only [splitByCharsGo]
    split
    · rename_i hflush
      have hcnt : count + 1 = maxChars := by omega
      simp only [List.length_cons]
      rw [ih [] 0 rfl (by omega)]
      have e : count + (rest.length + 1) + maxChars - 1
          = (0 + rest.length + maxChars - 1) + maxChars := by omega
      rw [e, Nat.add_div_right _ (by omega)]
    · rename_i hflush
      rw [ih (current ++ [ch]) (count + 1) (by simp [hc]) (by omega)]
      congr 1
      simp only [List.length_cons]
      omega

theorem splitTextGo_bound (maxChars : Nat) (hm : 1 ≤ maxChars) (ps : List (List Char)) :
    ∀ current currentLen, currentLen = current.length → currentLen ≤ maxChars →
      ∀ c ∈ splitTextGo maxChars ps current currentLen, c.length ≤ maxChars := by
  induction ps with
  | nil =>
    intro current n hc hle c hcm
    rw [splitTextGo_nil] at hcm
    split at hcm
    · simp at hcm
    · simp at hcm; subst hcm; omega
  | cons p ps ih =>
    intro current n hc hle c hcm
    by_cases h1 : maxChars < p.length
    · rw [splitTextGo_oversize h1] at hcm
      simp only [List.mem_append] at hcm
      rcases hcm with (hcm | hcm) | hcm
      · split at hcm
        · simp at hcm
        · simp at hcm; subst hcm; omega
      · exact splitByCharsGo_bound maxChars p [] 0 rfl (by omega) c hcm
      · exact ih [] 0 rfl (by omega) c hcm
    · by_cases hc0 : current = []
      · subst hc0
        simp only [List.length_nil] at hc
        subst hc
        have hcond : ¬((([] : List Char)) ≠ [] ∧
            maxChars < 0 + (if ([] : List Char) = [] then 0 else 2) + p.length) := by simp
        rw [splitTextGo_pack h1 hcond] at hcm
        simp only [if_true, ite_true, reduceIte, Nat.zero_add] at hcm
        exact ih p p.length rfl (by omega) c hcm
      · by_cases h2 : maxChars < n + 2 + p.length
        · rw [splitTextGo_overflow h1 hc0 h2] at hcm
          rcases List.mem_cons.mp hcm with h | h
          · subst h; omega
          · exact ih p p.length rfl (by omega) c h
        · have hcond : ¬(current ≠ [] ∧
              maxChars < n + (if current = [] then 0 else 2) + p.length) := by
            simp [hc0]; omega
          rw [splitTextGo_pack h1 hcond] at hcm
          simp only [if_neg hc0] at hcm
          exact ih (current ++ nl2 ++ p) _
            (by simp [nl2, hc, List.length_append]; try omega) (by omega) c hcm

/-- C9: for every text and every `maxChars ≥ 1`, when the text exceeds
`maxChars` every chunk returned by `split_text` has at most `maxChars`
characters; and a single paragraph of length `2*maxChars + 5` (no
newlines) is hard-split into exactly `⌈(2*maxChars+5)/maxChars⌉` pieces,
written below with the Nat identity `⌈a/b⌉ = (a + (b-1)) / b`. -/
theorem claim9_chunk_bounds (text : List Char) (maxChars : Nat)
    (hm : 1 ≤ maxChars) (hgt : maxChars < text.length) :
    (∀ c ∈ split_text text maxChars, c.length ≤ maxChars) ∧
    (split_text (List.replicate (2 * maxChars + 5) 'a') maxChars).length
      = (2 * maxChars + 5 + (maxChars - 1)) / maxChars := by
  constructor
  · intro c hcm
    rw [split_text, if_neg (not_le.mpr hgt)] at hcm
    exact splitTextGo_bound maxChars hm _ [] 0 rfl (by omega) c hcm
  · have hrep : '\n' ∉ List.replicate (2 * maxChars + 5) 'a' := by
      intro h
      exact absurd (List.eq_of_mem_replicate h) (by decide)
    have hlen : (List.replicate (2 * maxChars + 5) 'a').length = 2 * maxChars + 5 := by
      simp
    rw [split_text, if_neg (by rw [hlen]; omega)]
    rw [splitOnPar_no_newline _ hrep]
    rw [splitTextGo_oversize (by rw [hlen]; omega)]
    simp only [if_true, ite_true, reduceIte, List.nil_append]
    rw [splitTextGo_nil]
    simp only [if_true, ite_true, reduceIte, List.append_nil]
    rw [split_by_chars, splitByCharsGo_count maxChars hm _ [] 0 rfl (by omega), hlen]
    congr 1
    omega

theorem claim9_witness :
    (∀ c ∈ split_text (str "abcdefgh") 3, c.length ≤ 3) ∧
    (split_text (List.replicate (2 * 3 + 5) 'a') 3).length
      = (2 * 3 + 5 + (3 - 1)) / 3 :=
  claim9_chunk_bounds (str "abcdefgh") 3 (by decide) (by decide)

/-! ## Cache key (`build_cache_key`, lines 433-436)

`build_cache_key` formats `source|target|text` and hashes it with the
`md5` crate.  The md5 digest (an external dependency) is implemented
below over `Nat` bytes; the UTF-8 byte encoding mirrors what
`md5::compute` receives from a Rust `String`. -/

/-- UTF-8 encoding of one Unicode scalar value. -/
def utf8EncodeChar (c : Char) : List Nat :=
  let n := c.toNat
  if n < 128 then [n]
  else if n < 2048 then [192 + n / 64, 128 + n % 64]
  else if n < 65536 then [224 + n / 4096, 128 + n / 64 % 64, 128 + n % 64]
  else [240 + n / 262144, 128 + n / 4096 % 64, 128 + n / 64 % 64, 128 + n % 64]

/-- UTF-8 bytes of a text. -/
def utf8Bytes (l : List Char) : List Nat := (l.map utf8EncodeChar).join

/-- Truncation to a 32-bit word. -/
def w32 (x : Nat) : Nat := x % 4294967296

/-- 32-bit bitwise complement. -/
def w32not (x : Nat) : Nat := 4294967295 - w32 x

/-- 32-bit left rotation. -/
def rotl32 (x s : Nat) : Nat := w32 (x * 2 ^ s) + w32 x / 2 ^ (32 - s)

def md5F (b c d : Nat) : Nat := Nat.lor (Nat.land b c) (Nat.land (w32not b) d)

def md5G (b c d : Nat) : Nat := Nat.lor (Nat.land d b) (Nat.land (w32not d) c)

def md5H (b c d : Nat) : Nat := Nat.xor b (Nat.xor c d)

def md5I (b c d : Nat) : Nat := Nat.xor c (Nat.lor b (w32not d))

/-- Per-round left-rotation amounts of MD5. -/
def md5S : List Nat :=
  [7, 12, 17, 22, 7, 12, 17, 22, 7, 12, 17, 22, 7, 12, 17, 22,
   5, 9, 14, 20, 5, 9, 14, 20, 5, 9, 14, 20, 5, 9, 14, 20,
   4, 11, 16, 23, 4, 11, 16, 23, 4, 11, 16, 23, 4, 11, 16, 23,
   6, 10, 15, 21, 6, 10, 15, 21, 6, 10, 15, 21, 6, 10, 15, 21]

/-- The MD5 sine-derived round constants. -/
def md5K : List Nat :=
  [0xd76aa478, 0xe8c7b756, 0x242070db, 0xc1bdceee,
   0xf57c0faf, 0x4787c62a, 0xa8304613, 0xfd469501,
   0x698098d8, 0x8b44f7af, 0xffff5bb1, 0x895cd7be,
   0x6b901122, 0xfd987193, 0xa679438e, 0x49b40821,
   0xf61e2562, 0xc040b340, 0x265e5a51, 0xe9b6c7aa,
   0xd62f105d, 0x02441453, 0xd8a1e681, 0xe7d3fbc8,
   0x21e1cde6, 0xc33707d6, 0xf4d50d87, 0x455a14ed,
   0xa9e3e905, 0xfcefa3f8, 0x676f02d9, 0x8d2a4c8a,
   0xfffa3942, 0x8771f681, 0x6d9d6122, 0xfde5380c,
   0xa4beea44, 0x4bdecfa9, 0xf6bb4b60, 0xbebfbc70,
   0x289b7ec6, 0xeaa127fa, 0xd4ef3085, 0x04881d05,
   0xd9d4d039, 0xe6db99e5, 0x1fa27cf8, 0xc4ac5665,
   0xf4292244, 0x432aff97, 0xab9423a7, 0xfc93a039,
   0x655b59c3, 0x8f0ccc92, 0xffeff47d, 0x85845dd1,
   0x6fa87e4f, 0xfe2ce6e0, 0xa3014314, 0x4e0811a1,
   0xf7537e82, 0xbd3af235, 0x2ad7d2bb, 0xeb86d391]

structure MD5State where
  a : Nat
  b : Nat
  c : Nat
  d : Nat

/-- Little-endian 32-bit word at index `g` of a 64-byte block. -/
def wordAt (block : List Nat) (g : Nat) : Nat :=
  block.getD (4 * g) 0 + 256 * block.getD (4 * g + 1) 0
    + 65536 * block.getD (4 * g + 2) 0 + 16777216 * block.getD (4 * g + 3) 0

/-- One of the 64 MD5 rounds. -/
def md5Round (block : List Nat) (st : MD5State) (i : Nat) : MD5State :=
  let fg : Nat × Nat :=
    if i < 16 then (md5F st.b st.c st.d, i)
    else if i < 32 then (md5G st.b st.c st.d, (5 * i + 1) % 16)
    else if i < 48 then (md5H st.b st.c st.d, (3 * i + 5) % 16)
    else (md5I st.b st.c st.d, (7 * i) % 16)
  let f := w32 (fg.1 + st.a + md5K.getD i 0 + wordAt block fg.2)
  ⟨st.d, w32 (st.b + rotl32 f (md5S.getD i 0)), st.b, st.c⟩

/-- MD5 compression of one 64-byte block. -/
def md5ProcessBlock (st : MD5State) (block : List Nat) : MD5State :=
  let r := (List.range 64).foldl (md5Round block) st
  ⟨w32 (st.a + r.a), w32 (st.b + r.b), w32 (st.c + r.c), w32 (st.d + r.d)⟩

/-- Cut a byte sequence into 64-byte blocks. -/
def chunk64 (l : List Nat) : List (List Nat) :=
  if h : l = [] then [] else l.take 64 :: chunk64 (l.drop 64)
termination_by l.length
decreasing_by
  simp only [List.length_drop]
  have hl : 0 < l.length := List.length_pos.mpr h
  omega

/-- MD5 padding: a 0x80 byte, zeros to 56 mod 64, then the bit length
as a little-endian 64-bit integer. -/
def md5Pad (msg : List Nat) : List Nat :=
  msg ++ 128 :: List.replicate ((119 - msg.length % 64) % 64) 0
    ++ (List.range 8).map (fun i => msg.length * 8 / 256 ^ i % 256)

/-- The MD5 digest state of a byte message. -/
def md5Digest (msg : List Nat) : MD5State :=
  (chunk64 (md5Pad msg)).foldl md5ProcessBlock
    ⟨0x67452301, 0xefcdab89, 0x98badcfe, 0x10325476⟩

def toHexDigit (n : Nat) : Char :=
  if n < 10 then Char.ofNat (48 + n) else Char.ofNat (87 + n)

def byteToHex (b : Nat) : List Char := [toHexDigit (b / 16), toHexDigit (b % 16)]

/-- Little-endian byte serialization of a 32-bit word. -/
def wordLEBytes (w : Nat) : List Nat :=
  [w % 256, w / 256 % 256, w / 65536 % 256, w / 16777216 % 256]

/-- The `{:x}` rendering of an md5 digest: 16 bytes as 32 hex characters. -/
def md5Hex (msg : List Nat) : List Char :=
  ((([(md5Digest msg).a, (md5Digest msg).b,
      (md5Digest msg).c, (md5Digest msg).d].map wordLEBytes).join).map byteToHex).join

/-- Pre-hash string of `build_cache_key` (line 434):
`format!("{}|{}|{}", source.unwrap_or(""), target, text)`. -/
def buildCacheKeyBase (text : List Char) (source : Option (List Char))
    (target : List Char) : List Char :=
  source.getD [] ++ '|' :: (target ++ '|' :: text)

/-- `build_cache_key` (lines 433-436): md5 hex digest of the UTF-8 bytes
of the pre-hash string. -/
def build_cache_key (text : List Char) (source : Option (List Char))
    (target : List Char) : List Char :=
  md5Hex (utf8Bytes (buildCacheKeyBase text source target))

theorem md5Hex_length (msg : List Nat) : (md5Hex msg).length = 32 := by
  simp [md5Hex, wordLEBytes, byteToHex]

theorem append_bar_inj (a b : List Char) :
    ∀ a2 b2, '|' ∉ a → '|' ∉ a2 →
      a ++ '|' :: b = a2 ++ '|' :: b2 → a = a2 ∧ b = b2 := by
  induction a with
  | nil =>
    intro a2 b2 h1 h2 heq
    rcases a2 with _ | ⟨c, r⟩
    · simpa using heq
    · rw [List.nil_append, List.cons_append] at heq
      injection heq with hx htl
      exact absurd (by rw [hx]; exact List.mem_cons_self c r) h2
  | cons x xs ih =>
    intro a2 b2 h1 h2 heq
    rcases a2 with _ | ⟨c, r⟩
    · rw [List.nil_append, List.cons_append] at heq
      injection heq with hx htl
      exact absurd (by rw [← hx]; exact List.mem_cons_self x xs) h1
    · simp only [List.cons_append] at heq
      injection heq with hx htl
      subst hx
      have hr := ih r b2 (fun hm => h1 (List.mem_cons_of_mem _ hm))
        (fun hm => h2 (List.mem_cons_of_mem _ hm)) htl
      exact ⟨by rw [hr.1], hr.2⟩

/-- C1 is corrected: the pre-hash string `source|target|text` is not
injective on distinct triples, because the separator `'|'` may occur
inside the fields.  The distinct triples (text `"x"`, source `"a|b"`,
target `"c"`) and (text `"x"`, source `"a"`, target `"b|c"`) share the
pre-hash string `"a|b|c|x"` and therefore the same md5 cache key. -/
theorem claim1_counterexample :
    (str "x", some (str "a|b"), str "c") ≠ (str "x", some (str "a"), str "b|c") ∧
    buildCacheKeyBase (str "x") (some (str "a|b")) (str "c")
      = buildCacheKeyBase (str "x") (some (str "a")) (str "b|c") ∧
    build_cache_key (str "x") (some (str "a|b")) (str "c")
      = build_cache_key (str "x") (some (str "a")) (str "b|c") := by
  refine ⟨by decide, by decide, ?_⟩
  have h : buildCacheKeyBase (str "x") (some (str "a|b")) (str "c")
      = buildCacheKeyBase (str "x") (some (str "a")) (str "b|c") := by decide
  rw [build_cache_key, build_cache_key, h]

/-- C1 (amended): `build_cache_key` is deterministic and always returns a
fixed-length, 32-hex-character key; and restricted to triples whose
source (with an absent source read as the empty string) and target
contain no `'|'` character, distinct triples have distinct pre-hash
strings, so their keys differ up to md5 collisions.  Without that
restriction injectivity fails (see the counterexample). -/
theorem claim1_cache_key (t1 t2 g1 g2 : List Char) (s1 s2 : Option (List Char))
    (h1 : '|' ∉ s1.getD []) (h2 : '|' ∉ g1) (h3 : '|' ∉ s2.getD []) (h4 : '|' ∉ g2) :
    build_cache_key t1 s1 g1 = build_cache_key t1 s1 g1 ∧
    (build_cache_key t1 s1 g1).length = 32 ∧
    (buildCacheKeyBase t1 s1 g1 = buildCacheKeyBase t2 s2 g2 →
      t1 = t2 ∧ s1.getD [] = s2.getD [] ∧ g1 = g2) := by
  refine ⟨rfl, md5Hex_length _, ?_⟩
  intro heq
  obtain ⟨hs, hrest⟩ := append_bar_inj _ _ _ _ h1 h3 heq
  obtain ⟨hg, ht⟩ := append_bar_inj _ _ _ _ h2 h4 hrest
  exact ⟨ht, hs, hg⟩

theorem claim1_witness :
    (build_cache_key (str "hello") (some (str "en")) (str "zh")).length = 32 :=
  (claim1_cache_key (str "hello") (str "bye") (str "zh") (str "ja")
    (some (str "en")) (some (str "fr"))
    (by decide) (by decide) (by decide) (by decide)).2.1

/-! ## Response cache (`Cache`, lines 92-102 and 376-404)

The `lru` crate's `LruCache` (an external dependency) is modelled as an
association list ordered most-recently-used first, with the crate's
documented semantics: `get` moves the entry to the head, `put` inserts
at the head and evicts the tail when a new key is inserted at capacity,
`pop` removes a key.  `Instant` is a `Nat`. -/

structure CacheEntry where
  value : List Char
  expires_at : Nat
deriving DecidableEq

structure Cache where
  ttl : Nat
  cap : Nat
  store : List (List Char × CacheEntry)
deriving DecidableEq

/-- Key lookup in the recency list (no promotion). -/
def lruLookup : List (List Char × CacheEntry) → List Char → Option CacheEntry
  | [], _ => none
  | (k, e) :: rest, key => if k = key then some e else lruLookup rest key

/-- `LruCache::pop`: remove a key from the recency list. -/
def lruRemove : List (List Char × CacheEntry) → List Char → List (List Char × CacheEntry)
  | [], _ => []
  | (k, e) :: rest, key => if k = key then rest else (k, e) :: lruRemove rest key

/-- `LruCache::put`: insert or overwrite at the most-recently-used
position, evicting the least-recently-used entry (the tail) when a new
key is inserted into a full cache. -/
def lruPut (store : List (List Char × CacheEntry)) (key : List Char) (e : CacheEntry)
    (cap : Nat) : List (List Char × CacheEntry) :=
  if (lruLookup store key).isSome then (key, e) :: lruRemove store key
  else if cap ≤ store.length then (key, e) :: store.dropLast
  else (key, e) :: store

/-- `Cache::new` (lines 377-383): capacity is `max_size.max(1)`. -/
def Cache.new (max_size ttl : Nat) : Cache :=
  { ttl := ttl, cap := Nat.max max_size 1, store := [] }

/-- `Cache::get` (lines 385-394): a fresh hit (`now ≤ expires_at`)
returns the value and promotes the entry; otherwise the key is popped
(a no-op when absent) and the result is absent. -/
def Cache.get (c : Cache) (key : List Char) (now : Nat) : Option (List Char) × Cache :=
  match lruLookup c.store key with
  | some entry =>
    if now ≤ entry.expires_at then
      (some entry.value, { c with store := (key, entry) :: lruRemove c.store key })
    else
      (none, { c with store := lruRemove c.store key })
  | none => (none, { c with store := lruRemove c.store key })

/-- `Cache::set` (lines 396-403): store the value with
`expires_at = now + ttl` at the most-recently-used position. -/
def Cache.set (c : Cache) (key value : List Char) (now : Nat) : Cache :=
  { c with store := lruPut c.store key ⟨value, now + c.ttl⟩ c.cap }

/-- A cache operation, for stating the capacity invariant over arbitrary
operation sequences. -/
inductive CacheOp where
  | get (key : List Char) (now : Nat)
  | set (key value : List Char) (now : Nat)

def applyOp (c : Cache) : CacheOp → Cache
  | .get key now => (Cache.get c key now).2
  | .set key value now => Cache.set c key value now

def runOps (c : Cache) (ops : List CacheOp) : Cache := ops.foldl applyOp c

/-! ### Cache lemmas -/

theorem lruRemove_length_le (store : List (List Char × CacheEntry)) (key : List Char) :
    (lruRemove store key).length ≤ store.length := by
  induction store with
  | nil => simp [lruRemove]
  | cons kv rest ih =>
    obtain ⟨k, e⟩ := kv
    simp only [lruRemove]
    split
    · simp
    · simpa using ih

theorem lruRemove_length_present (store : List (List Char × CacheEntry)) (key : List Char)
    (e : CacheEntry) (h : lruLookup store key = some e) :
    (lruRemove store key).length + 1 = store.length := by
  induction store with
  | nil => simp [lruLookup] at h
  | cons kv rest ih =>
    obtain ⟨k, e2⟩ := kv
    simp only [lruLookup] at h
    simp only [lruRemove]
    split
    · simp
    · rename_i hk
      rw [if_neg hk] at h
      simpa using ih h

theorem lruRemove_not_mem (store : List (List Char × CacheEntry)) (key : List Char)
    (hnd : (store.map Prod.fst).Nodup) :
    lruLookup (lruRemove store key) key = none := by
  induction store with
  | nil => simp [lruRemove, lruLookup]
  | cons kv rest ih =>
    obtain ⟨k, e⟩ := kv
    simp only [List.map_cons, List.nodup_cons] at hnd
    simp only [lruRemove]
    split
    · rename_i hk
      subst hk
      clear ih
      induction rest with
      | nil => simp [lruLookup]
      | cons kv2 rest2 ih2 =>
        obtain ⟨k2, e2⟩ := kv2
        simp only [List.map_cons, List.mem_cons, not_or] at hnd
        simp only [lruLookup]
        rw [if_neg (fun hk2 => hnd.1.1 hk2.symm)]
        exact ih2 ⟨hnd.1.2, hnd.2.sublist (List.sublist_cons_self _ _) ⟩
    · rename_i hk
      simp only [lruLookup, if_neg hk]
      exact ih hnd.2

theorem cache_get_cap (c : Cache) (key : List Char) (now : Nat) :
    ((Cache.get c key now).2).cap = c.cap ∧ ((Cache.get c key now).2).ttl = c.ttl := by
  rw [Cache.get]
  rcases lruLookup c.store key with _ | e
  · exact ⟨rfl, rfl⟩
  · dsimp only
    split <;> exact ⟨rfl, rfl⟩

theorem cache_set_cap (c : Cache) (key value : List Char) (now : Nat) :
    (Cache.set c key value now).cap = c.cap ∧ (Cache.set c key value now).ttl = c.ttl :=
  ⟨rfl, rfl⟩

theorem cache_get_length (c : Cache) (key : List Char) (now : Nat) :
    ((Cache.get c key now).2).store.length ≤ c.store.length := by
  rw [Cache.get]
  rcases h : lruLookup c.store key with _ | e
  · dsimp only
    exact lruRemove_length_le _ _
  · dsimp only
    split
    · dsimp only
      have := lruRemove_length_present c.store key e h
      simp; omega
    · exact lruRemove_length_le _ _

theorem cache_set_length (c : Cache) (key value : List Char) (now : Nat)
    (hcap : 1 ≤ c.cap) (h : c.store.length ≤ c.cap) :
    (Cache.set c key value now).store.length ≤ c.cap := by
  rw [Cache.set]
  dsimp only
  rw [lruPut]
  split
  · rename_i hp
    obtain ⟨e, he⟩ := Option.isSome_iff_exists.mp hp
    have := lruRemove_length_present c.store key e he
    simp; omega
  · split
    · rename_i hfull
      have hpos : 0 < c.store.length := by omega
      simp [List.length_dropLast]
      omega
    · rename_i hroom
      simp; omega

theorem lruRemove_absent (store : List (List Char × CacheEntry)) (key : List Char)
    (habs : lruLookup store key = none) : lruRemove store key = store := by
  induction store with
  | nil => rfl
  | cons kv rest ih =>
    obtain ⟨k, e⟩ := kv
    simp only [lruLookup] at habs
    simp only [lruRemove]
    split
    · rename_i hk; rw [if_pos hk] at habs; exact absurd habs (by simp)
    · rename_i hk; rw [if_neg hk] at habs; rw [ih habs]

theorem lruPut_head (store : List (List Char × CacheEntry)) (key : List Char)
    (e : CacheEntry) (cap : Nat) :
    ∃ rest, lruPut store key e cap = (key, e) :: rest := by
  rw [lruPut]
  split
  · exact ⟨_, rfl⟩
  · split
    · exact ⟨_, rfl⟩
    · exact ⟨_, rfl⟩

/-- C3: `Cache::set` stores the value with `expires_at = now + ttl`; a
`get` strictly before that deadline returns the stored text, a `get`
strictly after returns absent and removes the stale entry; and a `get`
for an absent key returns absent and leaves the store unchanged.  The
`Nodup` hypothesis is the `LruCache` representation invariant (a real
`LruCache` never holds a key twice; every state built by `Cache.new`,
`get` and `set` satisfies it). -/
theorem claim3_cache_ttl (c : Cache) (key value : List Char) (t now : Nat)
    (hnd : ((Cache.set c key value t).store.map Prod.fst).Nodup) :
    lruLookup (Cache.set c key value t).store key = some ⟨value, t + c.ttl⟩ ∧
    (now < t + c.ttl →
      (Cache.get (Cache.set c key value t) key now).1 = some value) ∧
    (t + c.ttl < now →
      (Cache.get (Cache.set c key value t) key now).1 = none ∧
      lruLookup ((Cache.get (Cache.set c key value t) key now).2).store key = none) ∧
    (lruLookup c.store key = none → Cache.get c key now = (none, c)) := by
  obtain ⟨rest, hput⟩ := lruPut_head c.store key ⟨value, t + c.ttl⟩ c.cap
  have hsetstore : (Cache.set c key value t).store = (key, ⟨value, t + c.ttl⟩) :: rest := by
    rw [Cache.set]; exact hput
  have hlook : lruLookup (Cache.set c key value t).store key = some ⟨value, t + c.ttl⟩ := by
    rw [hsetstore, lruLookup, if_pos rfl]
  refine ⟨hlook, ?_, ?_, ?_⟩
  · intro hfresh
    rw [Cache.get, hlook]
    dsimp only
    rw [if_pos (by omega)]
  · intro hstale
    rw [Cache.get, hlook]
    dsimp only
    rw [if_neg (by omega)]
    refine ⟨rfl, ?_⟩
    dsimp only
    exact lruRemove_not_mem _ _ hnd
  · intro habs
    rw [Cache.get, habs]
    dsimp only
    rw [lruRemove_absent _ _ habs]

theorem claim3_witness :
    lruLookup (Cache.set (Cache.new 2 10) (str "k") (str "v") 5).store (str "k")
        = some ⟨str "v", 5 + 10⟩ ∧
    (Cache.get (Cache.set (Cache.new 2 10) (str "k") (str "v") 5) (str "k") 14).1
        = some (str "v") ∧
    (Cache.get (Cache.set (Cache.new 2 10) (str "k") (str "v") 5) (str "k") 16).1 = none := by
  have h := claim3_cache_ttl (Cache.new 2 10) (str "k") (str "v") 5 14 (by decide)
  have h2 := claim3_cache_ttl (Cache.new 2 10) (str "k") (str "v") 5 16 (by decide)
  exact ⟨h.1, h.2.1 (by decide), (h2.2.2.1 (by decide)).1⟩

/-- C4: the store never exceeds the capacity under any sequence of `get`
and `set` operations (both from a fresh `Cache::new` state and from any
in-bound state); inserting a new key into a full cache evicts exactly
the least-recently-used (tail) entry; and a fresh `get` hit promotes the
entry to most-recently-used position, refreshing its recency. -/
theorem claim4_cache_capacity_lru (m t : Nat) (ops : List CacheOp) (c : Cache)
    (h1 : 1 ≤ c.cap) (h2 : c.store.length ≤ c.cap) :
    (runOps (Cache.new m t) ops).store.length ≤ Nat.max m 1 ∧
    (runOps c ops).store.length ≤ c.cap ∧
    (∀ key value now, c.store.length = c.cap → lruLookup c.store key = none →
      (Cache.set c key value now).store = (key, ⟨value, now + c.ttl⟩) :: c.store.dropLast) ∧
    (∀ key e now, lruLookup c.store key = some e → now ≤ e.expires_at →
      (Cache.get c key now).1 = some e.value ∧
      (Cache.get c key now).2.store = (key, e) :: lruRemove c.store key) := by
  have main : ∀ (ops2 : List CacheOp) (c2 : Cache), 1 ≤ c2.cap →
      c2.store.length ≤ c2.cap → (runOps c2 ops2).store.length ≤ c2.cap := by
    intro ops2
    induction ops2 with
    | nil => intro c2 hc1 hc2; exact hc2
    | cons op rest ih =>
      intro c2 hc1 hc2
      rcases op with ⟨key, now⟩ | ⟨key, value, now⟩
      · have hstep := cache_get_length c2 key now
        have hcap := (cache_get_cap c2 key now).1
        have := ih (Cache.get c2 key now).2 (by omega) (by omega)
        simpa [runOps, applyOp] using (by rw [hcap] at this; exact this)
      · have hstep := cache_set_length c2 key value now hc1 hc2
        have hcap := (cache_set_cap c2 key value now).1
        have := ih (Cache.set c2 key value now) (by omega) (by omega)
        simpa [runOps, applyOp] using (by rw [hcap] at this; exact this)
  refine ⟨?_, main ops c h1 h2, ?_, ?_⟩
  · have hnc : 1 ≤ (Cache.new m t).cap := by
      show 1 ≤ Nat.max m 1
      exact Nat.le_max_right m 1
    have hns : (Cache.new m t).store.length ≤ (Cache.new m t).cap := by
      show List.length [] ≤ Nat.max m 1
      simp
    exact main ops (Cache.new m t) hnc hns
  · intro key value now hfull habs
    rw [Cache.set, lruPut]
    rw [if_neg (by rw [habs]; simp), if_pos (by omega)]
  · intro key e now hlook hfresh
    rw [Cache.get, hlook]
    dsimp only
    rw [if_pos hfresh]
    exact ⟨rfl, rfl⟩

theorem claim4_witness :
    (runOps (Cache.new 2 10)
        [.set (str "a") (str "1") 0, .set (str "b") (str "2") 0,
         .get (str "a") 1, .set (str "c") (str "3") 1]).store.length ≤ Nat.max 2 1 ∧
    (Cache.set ⟨10, 2, [(str "b", ⟨str "2", 10⟩), (str "a", ⟨str "1", 10⟩)]⟩
        (str "c") (str "3") 1).store
      = (str "c", ⟨str "3", 1 + 10⟩)
          :: [(str "b", ⟨str "2", 10⟩), (str "a", ⟨str "1", 10⟩)].dropLast := by
  have h := claim4_cache_capacity_lru 2 10
    [.set (str "a") (str "1") 0, .set (str "b") (str "2") 0,
     .get (str "a") 1, .set (str "c") (str "3") 1]
    ⟨10, 2, [(str "b", ⟨str "2", 10⟩), (str "a", ⟨str "1", 10⟩)]⟩
    (by decide) (by decide)
  exact ⟨h.1, h.2.2.1 (str "c") (str "3") 1 (by decide) (by decide)⟩

/-! ## Rate limiter (`RateLimiter`, lines 104-109 and 406-431) -/

structure RateLimiter where
  window : Nat
  max : Nat
  hits : List Nat
deriving DecidableEq

/-- The pruning loop of `RateLimiter::allow` (lines 418-424): drop
timestamps from the front while strictly older than `now - window`,
stopping at the first one in range. -/
def pruneHits (now window : Nat) : List Nat → List Nat
  | [] => []
  | t :: rest => if window < now - t then pruneHits now window rest else t :: rest

/-- `RateLimiter::new` (lines 407-413): the quota is `max.max(1)`. -/
def RateLimiter.new (window mx : Nat) : RateLimiter :=
  { window := window, max := Nat.max mx 1, hits := [] }

/-- `RateLimiter::allow` (lines 415-430): prune, then deny without
recording when the quota is filled, otherwise record `now` and allow. -/
def RateLimiter.allow (s : RateLimiter) (now : Nat) : Bool × RateLimiter :=
  let hits := pruneHits now s.window s.hits
  if s.max ≤ hits.length then (false, { s with hits := hits })
  else (true, { s with hits := hits ++ [now] })

/-- Successive `allow()` calls at the given instants, returning the
results in order together with the final limiter state. -/
def runAllows (s : RateLimiter) : List Nat → List Bool × RateLimiter
  | [] => ([], s)
  | t :: ts =>
    let r := RateLimiter.allow s t
    let rest := runAllows r.2 ts
    (r.1 :: rest.1, rest.2)

/-- C5: `allow()` first prunes timestamps strictly older than
`now - window` from the front of the record, then allows exactly when
the remaining count is below the quota (recording `now` only in that
case).  Consequently with `max = 3` four calls within the window yield
`[true, true, true, false]`, and a call made more than `window` after
the last recorded timestamp yields `true` again. -/
theorem claim5_rate_limiter (w t1 t2 t3 t4 t5 : Nat)
    (h12 : t1 ≤ t2) (h23 : t2 ≤ t3) (h34 : t3 ≤ t4)
    (hwin : t4 - t1 ≤ w) (hgap : t3 + w < t5) :
    (∀ s now, ((RateLimiter.allow s now).1 = true ↔
        (pruneHits now s.window s.hits).length < s.max) ∧
      ((RateLimiter.allow s now).1 = false →
        (RateLimiter.allow s now).2.hits = pruneHits now s.window s.hits)) ∧
    (runAllows (RateLimiter.new w 3) [t1, t2, t3, t4, t5]).1
      = [true, true, true, false, true] := by
  constructor
  · intro s now
    by_cases h : s.max ≤ (pruneHits now s.window s.hits).length
    · constructor
      · simp [RateLimiter.allow, h]
        try omega
      · intro _
        simp [RateLimiter.allow, h]
    · constructor
      · simp [RateLimiter.allow, h]
        try omega
      · intro hfalse
        rw [RateLimiter.allow] at hfalse
        simp only [if_neg h] at hfalse
        exact absurd hfalse (by simp)
  · have hnew : RateLimiter.new w 3 = ⟨w, 3, []⟩ := rfl
    have p2 : pruneHits t2 w [t1] = [t1] := by
      rw [pruneHits, if_neg (by omega)]
    have p3 : pruneHits t3 w [t1, t2] = [t1, t2] := by
      rw [pruneHits, if_neg (by omega)]
    have p4 : pruneHits t4 w [t1, t2, t3] = [t1, t2, t3] := by
      rw [pruneHits, if_neg (by omega)]
    have p5 : pruneHits t5 w [t1, t2, t3] = [] := by
      rw [pruneHits, if_pos (by omega), pruneHits, if_pos (by omega),
        pruneHits, if_pos (by omega)]
      rfl
    have e1 : RateLimiter.allow ⟨w, 3, []⟩ t1 = (true, ⟨w, 3, [t1]⟩) := rfl
    have e2 : RateLimiter.allow ⟨w, 3, [t1]⟩ t2 = (true, ⟨w, 3, [t1, t2]⟩) := by
      simp [RateLimiter.allow, p2]
    have e3 : RateLimiter.allow ⟨w, 3, [t1, t2]⟩ t3 = (true, ⟨w, 3, [t1, t2, t3]⟩) := by
      simp [RateLimiter.allow, p3]
    have e4 : RateLimiter.allow ⟨w, 3, [t1, t2, t3]⟩ t4 = (false, ⟨w, 3, [t1, t2, t3]⟩) := by
      simp [RateLimiter.allow, p4]
    have e5 : RateLimiter.allow ⟨w, 3, [t1, t2, t3]⟩ t5 = (true, ⟨w, 3, [t5]⟩) := by
      simp [RateLimiter.allow, p5]
    simp only [runAllows, hnew, e1, e2, e3, e4, e5]

theorem claim5_witness :
    (runAllows (RateLimiter.new 60 3) [0, 0, 1, 1, 62]).1
      = [true, true, true, false, true] :=
  (claim5_rate_limiter 60 0 0 1 1 62 (by decide) (by decide) (by decide)
    (by decide) (by decide)).2

/-! ## Response parser (`parse_doubao_response`, lines 305-344)

JSON documents are modelled by `JValue`; the `serde_json` text-decoding
step (line 306) is external, so the parser is embedded from the parsed
`Value` on.  `jGet`, `asStr` and `asArr` mirror `Value::get`,
`as_str` and `as_array`. -/

inductive JValue where
  | null
  | bool (b : Bool)
  | num (n : Int)
  | str (s : List Char)
  | arr (items : List JValue)
  | obj (fields : List (List Char × JValue))

def lookupField : List (List Char × JValue) → List Char → Option JValue
  | [], _ => none
  | (k, v) :: rest, key => if k = key then some v else lookupField rest key

/-- `serde_json::Value::get`: field lookup, `None` on non-objects. -/
def jGet : JValue → List Char → Option JValue
  | .obj fields, key => lookupField fields key
  | _, _ => none

/-- `Value::as_str`. -/
def asStr : JValue → Option (List Char)
  | .str s => some s
  | _ => none

/-- `Value::as_array`. -/
def asArr : JValue → Option (List JValue)
  | .arr items => some items
  | _ => none

/-- Inner loop over a message item's `content` array (lines 317-324):
return the `text` string of the first entry of type `output_text` that
carries one. -/
def findPartText : List JValue → Option (List Char)
  | [] => none
  | part :: rest =>
    if (jGet part (str "type")).bind asStr = some (str "output_text") then
      match (jGet part (str "text")).bind asStr with
      | some t => some t
      | none => findPartText rest
    else findPartText rest

/-- Outer loop over the `output` array (lines 310-326): skip items that
are not assistant messages; in an assistant message, return the first
output text found, else continue with the remaining items. -/
def findOutputText : List JValue → Option (List Char)
  | [] => none
  | item :: rest =>
    if (jGet item (str "type")).bind asStr = some (str "message") ∧
        (jGet item (str "role")).bind asStr = some (str "assistant") then
      match (jGet item (str "content")).bind asArr with
      | some content =>
        match findPartText content with
        | some t => some t
        | none => findOutputText rest
      | none => findOutputText rest
    else findOutputText rest

/-- Schema-B extraction (lines 331-341): the first choice's
`message.content` string. -/
def schemaBText (v : JValue) : Option (List Char) :=
  ((jGet v (str "choices")).bind asArr).bind fun choices =>
    choices.head?.bind fun choice =>
      ((jGet choice (str "message")).bind fun m => jGet m (str "content")).bind asStr

/-- `parse_doubao_response` (lines 305-344): when the top-level `status`
is `"completed"`, Schema A is mandatory — scan `output` for an assistant
message's output text and otherwise fail with
`"new format missing output_text"`; only without the completed status
marker is Schema B consulted, and `"unknown response format"` is
returned when it does not resolve either. -/
def parse_doubao_response (v : JValue) : Except String (List Char) :=
  if (jGet v (str "status")).bind asStr = some (str "completed") then
    match ((jGet v (str "output")).bind asArr).bind findOutputText with
    | some t => .ok t
    | none => .error "new format missing output_text"
  else
    match schemaBText v with
    | some t => .ok t
    | none => .error "unknown response format"

/-- The canonical Schema-A reply carrying translated text `t`. -/
def docA (t : List Char) : JValue :=
  .obj [(str "status", .str (str "completed")),
        (str "output", .arr [.obj [
          (str "type", .str (str "message")),
          (str "role", .str (str "assistant")),
          (str "content", .arr [.obj [
            (str "type", .str (str "output_text")),
            (str "text", .str t)]])]])]

/-- A reply with `status:"completed"`, an empty `output` array, and a
well-formed Schema-B `choices` path carrying `t`. -/
def docCompletedEmptyOutput (t : List Char) : JValue :=
  .obj [(str "status", .str (str "completed")),
        (str "output", .arr []),
        (str "choices", .arr [.obj [(str "message",
          .obj [(str "content", .str t)])]])]

/-- The canonical Schema-B reply (no `status` field) carrying `t`. -/
def docB (t : List Char) : JValue :=
  .obj [(str "choices", .arr [.obj [(str "message",
    .obj [(str "content", .str t)])]])]

/-- C6: Schema A is attempted first — with the completed status marker,
a resolving nested text path yields its text and a non-resolving one
yields the schema-A failure (never a fall-through to Schema B, even when
a valid `choices` path is present, as `docCompletedEmptyOutput` shows);
without the marker, Schema B's `choices[0].message.content` is returned
verbatim when present, and `"unknown response format"` otherwise. -/
theorem claim6_parser_resolution (v : JValue) :
    ((jGet v (str "status")).bind asStr = some (str "completed") →
      (∀ t, ((jGet v (str "output")).bind asArr).bind findOutputText = some t →
        parse_doubao_response v = .ok t) ∧
      (((jGet v (str "output")).bind asArr).bind findOutputText = none →
        parse_doubao_response v = .error "new format missing output_text")) ∧
    ((jGet v (str "status")).bind asStr ≠ some (str "completed") →
      (∀ t, schemaBText v = some t → parse_doubao_response v = .ok t) ∧
      (schemaBText v = none →
        parse_doubao_response v = .error "unknown response format")) ∧
    (∀ t, parse_doubao_response (docA t) = .ok t ∧
      parse_doubao_response (docCompletedEmptyOutput t)
        = .error "new format missing output_text" ∧
      parse_doubao_response (docB t) = .ok t) := by
  refine ⟨?_, ?_, ?_⟩
  · intro hst
    constructor
    · intro t hfound
      rw [parse_doubao_response, if_pos hst, hfound]
    · intro hmiss
      rw [parse_doubao_response, if_pos hst, hmiss]
  · intro hst
    constructor
    · intro t hb
      rw [parse_doubao_response, if_neg hst, hb]
    · intro hb
      rw [parse_doubao_response, if_neg hst, hb]
  · intro t
    refine ⟨rfl, rfl, rfl⟩

theorem claim6_witness :
    parse_doubao_response (docCompletedEmptyOutput (str "Hola"))
      = .error "new format missing output_text" :=
  (claim6_parser_resolution (docCompletedEmptyOutput (str "Hola"))).1
    (by rfl) |>.2 (by rfl)

/-! ## Orchestrator (`translate_handler` / `translate_chunk`, lines 161-303)

The outbound network call is an injected oracle
`net : DoubaoRequest → Except String NetReply`: a transport failure
(including a body-read failure) is `.error`, a received reply is `.ok`
with its HTTP status and its body already JSON-decoded (the raw-text
legs are external I/O).  HTTP status codes are plain `Nat`s. -/

structure TranslationOptions where
  source_language : Option (List Char)
  target_language : List Char
deriving DecidableEq

structure DoubaoContent where
  content_type : List Char
  text : List Char
  translation_options : Option TranslationOptions
deriving DecidableEq

structure DoubaoInputMessage where
  role : List Char
  content : List DoubaoContent
deriving DecidableEq

structure DoubaoRequest where
  model : List Char
  input : List DoubaoInputMessage
deriving DecidableEq

/-- The provider request body built by `translate_chunk` (lines 268-281).
An absent source yields `source_language = none`, which serde skips when
serializing (`skip_serializing_if`), i.e. the field is omitted. -/
def buildDoubaoRequest (text : List Char) (source : Option (List Char))
    (target : List Char) : DoubaoRequest :=
  { model := str "doubao-seed-translation-250915",
    input := [{ role := str "user",
                content := [{ content_type := str "input_text",
                              text := text,
                              translation_options := some
                                { source_language := source,
                                  target_language := target } }] }] }

structure NetReply where
  status : Nat
  body : JValue

/-- `translate_chunk` (lines 262-303): build the request, call the
provider, fail on transport errors and non-2xx statuses, else parse. -/
def translate_chunk (net : DoubaoRequest → Except String NetReply)
    (text : List Char) (source : Option (List Char)) (target : List Char) :
    Except String (List Char) :=
  match net (buildDoubaoRequest text source target) with
  | .error e => .error ("HTTP请求失败: " ++ e)
  | .ok r =>
    if 200 ≤ r.status ∧ r.status < 300 then
      match parse_doubao_response r.body with
      | .ok t => .ok t
      | .error e => .error ("响应解析失败: " ++ e)
    else .error ("API错误 " ++ toString r.status)

/-- The per-chunk loop of `translate_handler` (lines 231-246): translate
chunks in order, abort on the first failure.  The second component is
the list of provider requests actually issued. -/
def translateChunks (net : DoubaoRequest → Except String NetReply)
    (source : Option (List Char)) (target : List Char) :
    List (List Char) → Except String (List (List Char)) × List DoubaoRequest
  | [] => (.ok [], [])
  | c :: rest =>
    match translate_chunk net c source target with
    | .error e => (.error e, [buildDoubaoRequest c source target])
    | .ok t =>
      let tcr := translateChunks net source target rest
      (tcr.1.map (fun ts => t :: ts), buildDoubaoRequest c source target :: tcr.2)

/-- Line 177: `payload.source.as_deref().filter(|s| !s.is_empty())` —
an empty source string is normalized to an absent source. -/
def normalizeSource (source : Option (List Char)) : Option (List Char) :=
  Option.filter (fun s => !s.isEmpty) source

/-- Rust `str::trim` (line 203), over the ASCII whitespace the model
uses. -/
def trimChars (l : List Char) : List Char :=
  ((l.dropWhile Char.isWhitespace).reverse.dropWhile Char.isWhitespace).reverse

structure TranslateRequest where
  text : List Char
  source : Option (List Char)
  target : List Char

structure TranslateResponse where
  success : Bool
  text : Option (List Char)
  cached : Option Bool
  error : Option String

structure Config where
  max_text_length : Nat

structure AppState where
  config : Config
  cache : Cache
  limiter : RateLimiter

structure HandlerOutput where
  status : Nat
  response : TranslateResponse
  state : AppState
  calls : List DoubaoRequest

/-- `translate_handler` (lines 161-260): rate limit, normalize the
source, validate (empty text, oversized text, blank target), build the
cache key, look up the cache, and on a miss translate the `split_text`
chunks (hard-wired `max_chars = 800`, line 228), join the results with
a single `"\n"` and store the joined text under the key. -/
def translate_handler (st : AppState) (net : DoubaoRequest → Except String NetReply)
    (payload : TranslateRequest) (now : Nat) : HandlerOutput :=
  let ar := RateLimiter.allow st.limiter now
  let st1 : AppState := { st with limiter := ar.2 }
  if ar.1 = false then
    ⟨429, ⟨false, none, none, some "请求过于频繁，请稍后再试"⟩, st1, []⟩
  else
    let source := normalizeSource payload.source
    let textLen := payload.text.length
    if textLen = 0 then
      ⟨400, ⟨false, none, none, some "文本不能为空"⟩, st1, []⟩
    else if st1.config.max_text_length < textLen then
      ⟨400, ⟨false, none, none,
        some ("文本长度超过限制（最大" ++ toString st1.config.max_text_length ++ "字符）")⟩,
        st1, []⟩
    else if trimChars payload.target = [] then
      ⟨400, ⟨false, none, none, some "目标语言不能为空"⟩, st1, []⟩
    else
      let cache_key := build_cache_key payload.text source payload.target
      let gr := Cache.get st1.cache cache_key now
      let st2 : AppState := { st1 with cache := gr.2 }
      match gr.1 with
      | some cached => ⟨200, ⟨true, some cached, some true, none⟩, st2, []⟩
      | none =>
        let chunks := split_text payload.text 800
        let tc := translateChunks net source payload.target chunks
        match tc.1 with
        | .error e =>
          ⟨500, ⟨false, none, none, some ("翻译失败: " ++ e)⟩, st2, tc.2⟩
        | .ok results =>
          let final_text := joinSep (str "\n") results
          ⟨200, ⟨true, some final_text, some false, none⟩,
            { st2 with cache := Cache.set st2.cache cache_key final_text now }, tc.2⟩

theorem translateChunks_ok (net : DoubaoRequest → Except String NetReply)
    (source : Option (List Char)) (target : List Char) (f : List Char → List Char) :
    ∀ cs, (∀ c ∈ cs, translate_chunk net c source target = .ok (f c)) →
      translateChunks net source target cs
        = (.ok (cs.map f), cs.map fun c => buildDoubaoRequest c source target) := by
  intro cs
  induction cs with
  | nil => intro _; rfl
  | cons c rest ih =>
    intro h
    have hc := h c (by simp)
    have hrest := ih fun c2 hc2 => h c2 (by simp [hc2])
    rw [translateChunks, hc]
    dsimp only
    rw [hrest]
    simp [Except.map]

theorem translateChunks_err (net : DoubaoRequest → Except String NetReply)
    (source : Option (List Char)) (target : List Char) (e : String)
    (c : List Char) (f : List Char → List Char) :
    ∀ pre post, (∀ x ∈ pre, translate_chunk net x source target = .ok (f x)) →
      translate_chunk net c source target = .error e →
      translateChunks net source target (pre ++ c :: post)
        = (.error e, (pre ++ [c]).map fun x => buildDoubaoRequest x source target) := by
  intro pre
  induction pre with
  | nil =>
    intro post _ hc
    simp only [List.nil_append]
    rw [translateChunks, hc]
    simp
  | cons p pre ih =>
    intro post h hc
    simp only [List.cons_append]
    rw [translateChunks, h p (by simp)]
    dsimp only
    rw [ih post (fun x hx => h x (by simp [hx])) hc]
    simp [Except.map]

/-- C7: on a cache miss, the first failing chunk aborts the request with
a 500 failure carrying no text, issues no provider call for later chunks
and writes nothing to the cache; when every chunk succeeds the response
is the per-chunk translations joined in order by a single `"\n"`, the
handler issues exactly one provider call per chunk, and the cache entry
written for the request key is exactly the returned text. -/
theorem claim7_orchestrator (st : AppState) (net : DoubaoRequest → Except String NetReply)
    (payload : TranslateRequest) (now : Nat) (lim2 : RateLimiter)
    (hallow : RateLimiter.allow st.limiter now = (true, lim2))
    (htext : payload.text ≠ [])
    (hlen : payload.text.length ≤ st.config.max_text_length)
    (htarget : trimChars payload.target ≠ [])
    (hmiss : (Cache.get st.cache
      (build_cache_key payload.text (normalizeSource payload.source) payload.target) now).1
        = none) :
    (∀ (pre : List (List Char)) (c : List Char) (post : List (List Char)) (e : String)
        (f : List Char → List Char), split_text payload.text 800 = pre ++ c :: post →
      (∀ x ∈ pre, translate_chunk net x (normalizeSource payload.source) payload.target
        = .ok (f x)) →
      translate_chunk net c (normalizeSource payload.source) payload.target = .error e →
      (translate_handler st net payload now).status = 500 ∧
      (translate_handler st net payload now).response.success = false ∧
      (translate_handler st net payload now).response.text = none ∧
      (translate_handler st net payload now).state.cache
        = (Cache.get st.cache
            (build_cache_key payload.text (normalizeSource payload.source) payload.target)
            now).2 ∧
      (translate_handler st net payload now).calls
        = (pre ++ [c]).map
            (fun x => buildDoubaoRequest x (normalizeSource payload.source) payload.target)) ∧
    (∀ f, (∀ x ∈ split_text payload.text 800,
        translate_chunk net x (normalizeSource payload.source) payload.target = .ok (f x)) →
      (translate_handler st net payload now).status = 200 ∧
      (translate_handler st net payload now).response.text
        = some (joinSep (str "\n") ((split_text payload.text 800).map f)) ∧
      (translate_handler st net payload now).state.cache
        = Cache.set
            (Cache.get st.cache
              (build_cache_key payload.text (normalizeSource payload.source) payload.target)
              now).2
            (build_cache_key payload.text (normalizeSource payload.source) payload.target)
            (joinSep (str "\n") ((split_text payload.text 800).map f)) now ∧
      lruLookup (translate_handler st net payload now).state.cache.store
          (build_cache_key payload.text (normalizeSource payload.source) payload.target)
        = some ⟨joinSep (str "\n") ((split_text payload.text 800).map f),
            now + st.cache.ttl⟩ ∧
      (translate_handler st net payload now).calls
        = (split_text payload.text 800).map
            (fun x => buildDoubaoRequest x (normalizeSource payload.source) payload.target)) := by
  have h1 : ¬(payload.text.length = 0) := fun h => htext (List.length_eq_zero.mp h)
  have h2 : ¬(st.config.max_text_length < payload.text.length) := not_lt.mpr hlen
  constructor
  · intro pre c post e f hsplit hpre hc
    have htc := translateChunks_err net (normalizeSource payload.source) payload.target
      e c f pre post hpre hc
    refine ⟨?_, ?_, ?_, ?_, ?_⟩ <;>
      simp [translate_handler, hallow, h1, h2, htarget, hmiss, hsplit, htc]
  · intro f hall
    have htc := translateChunks_ok net (normalizeSource payload.source) payload.target
      f (split_text payload.text 800) hall
    refine ⟨?_, ?_, ?_, ?_, ?_⟩
    · simp [translate_handler, hallow, h1, h2, htarget, hmiss, htc]
    · simp [translate_handler, hallow, h1, h2, htarget, hmiss, htc]
    · simp [translate_handler, hallow, h1, h2, htarget, hmiss, htc]
    · have hcache : (translate_handler st net payload now).state.cache
          = Cache.set
              (Cache.get st.cache
                (build_cache_key payload.text (normalizeSource payload.source) payload.target)
                now).2
              (build_cache_key payload.text (normalizeSource payload.source) payload.target)
              (joinSep (str "\n") ((split_text payload.text 800).map f)) now := by
        simp [translate_handler, hallow, h1, h2, htarget, hmiss, htc]
      rw [hcache]
      obtain ⟨rest, hput⟩ := lruPut_head
        (Cache.get st.cache
          (build_cache_key payload.text (normalizeSource payload.source) payload.target)
          now).2.store
        (build_cache_key payload.text (normalizeSource payload.source) payload.target)
        ⟨joinSep (str "\n") ((split_text payload.text 800).map f),
          now + (Cache.get st.cache
            (build_cache_key payload.text (normalizeSource payload.source) payload.target)
            now).2.ttl⟩
        (Cache.get st.cache
          (build_cache_key payload.text (normalizeSource payload.source) payload.target)
          now).2.cap
      rw [Cache.set]
      dsimp only
      rw [hput, lruLookup, if_pos rfl,
        (cache_get_cap st.cache
          (build_cache_key payload.text (normalizeSource payload.source) payload.target) now).2]
    · simp [translate_handler, hallow, h1, h2, htarget, hmiss, htc]

/-- A small concrete application state used by handler witnesses. -/
def stW : AppState := ⟨⟨100⟩, ⟨10, 2, []⟩, ⟨60, 3, []⟩⟩

/-- A provider oracle that always answers 200 with a Schema-A body. -/
def netOkW : DoubaoRequest → Except String NetReply :=
  fun _ => .ok ⟨200, docA (str "ok")⟩

theorem claim7_witness :
    (translate_handler stW netOkW ⟨str "hi", none, str "en"⟩ 0).status = 200 ∧
    (translate_handler stW netOkW ⟨str "hi", none, str "en"⟩ 0).response.text
      = some (str "ok") := by
  have h := (claim7_orchestrator stW netOkW ⟨str "hi", none, str "en"⟩ 0 ⟨60, 3, [0]⟩
    rfl (by decide) (by decide) (by decide) rfl).2
    (fun _ => str "ok") (fun x _ => rfl)
  exact ⟨h.1, by rw [h.2.1]; rfl⟩

/-- C8: the rate limiter is consulted before any validation — a denied
request yields 429 with nothing else touched, and an allowed request
records its timestamp even when validation then fails; validation
short-circuits in the order empty text, oversized text, blank target
(each a 400 with the cache untouched), and only once all three pass is
the cache consulted (shown by the cache-hit outcome). -/
theorem claim8_admission_pipeline (st : AppState)
    (net : DoubaoRequest → Except String NetReply)
    (payload : TranslateRequest) (now : Nat) :
    (st.limiter.max ≤ (pruneHits now st.limiter.window st.limiter.hits).length →
      (translate_handler st net payload now).status = 429 ∧
      (translate_handler st net payload now).state.cache = st.cache ∧
      (translate_handler st net payload now).state.limiter.hits
        = pruneHits now st.limiter.window st.limiter.hits ∧
      (translate_handler st net payload now).calls = []) ∧
    ((pruneHits now st.limiter.window st.limiter.hits).length < st.limiter.max →
      (payload.text = [] →
        (translate_handler st net payload now).status = 400 ∧
        (translate_handler st net payload now).response.error = some "文本不能为空" ∧
        (translate_handler st net payload now).state.limiter.hits
          = pruneHits now st.limiter.window st.limiter.hits ++ [now] ∧
        (translate_handler st net payload now).state.cache = st.cache ∧
        (translate_handler st net payload now).calls = []) ∧
      (payload.text ≠ [] → st.config.max_text_length < payload.text.length →
        (translate_handler st net payload now).status = 400 ∧
        (translate_handler st net payload now).response.error
          = some ("文本长度超过限制（最大" ++ toString st.config.max_text_length ++ "字符）") ∧
        (translate_handler st net payload now).state.limiter.hits
          = pruneHits now st.limiter.window st.limiter.hits ++ [now] ∧
        (translate_handler st net payload now).state.cache = st.cache ∧
        (translate_handler st net payload now).calls = []) ∧
      (payload.text ≠ [] → payload.text.length ≤ st.config.max_text_length →
        trimChars payload.target = [] →
        (translate_handler st net payload now).status = 400 ∧
        (translate_handler st net payload now).response.error = some "目标语言不能为空" ∧
        (translate_handler st net payload now).state.limiter.hits
          = pruneHits now st.limiter.window st.limiter.hits ++ [now] ∧
        (translate_handler st net payload now).state.cache = st.cache ∧
        (translate_handler st net payload now).calls = []) ∧
      (payload.text ≠ [] → payload.text.length ≤ st.config.max_text_length →
        trimChars payload.target ≠ [] → ∀ v,
        (Cache.get st.cache
          (build_cache_key payload.text (normalizeSource payload.source) payload.target)
          now).1 = some v →
        (translate_handler st net payload now).status = 200 ∧
        (translate_handler st net payload now).response.text = some v ∧
        (translate_handler st net payload now).response.cached = some true ∧
        (translate_handler st net payload now).state.cache
          = (Cache.get st.cache
              (build_cache_key payload.text (normalizeSource payload.source) payload.target)
              now).2 ∧
        (translate_handler st net payload now).state.limiter.hits
          = pruneHits now st.limiter.window st.limiter.hits ++ [now] ∧
        (translate_handler st net payload now).calls = [])) := by
  constructor
  · intro hdeny
    have ha : RateLimiter.allow st.limiter now
        = (false, { st.limiter with hits := pruneHits now st.limiter.window st.limiter.hits }) := by
      rw [RateLimiter.allow]
      simp only [if_pos hdeny]
    simp [translate_handler, ha]
  · intro hok
    have ha : RateLimiter.allow st.limiter now
        = (true, { st.limiter with
            hits := pruneHits now st.limiter.window st.limiter.hits ++ [now] }) := by
      rw [RateLimiter.allow]
      simp only [if_neg (not_le.mpr hok)]
    refine ⟨?_, ?_, ?_, ?_⟩
    · intro hempty
      simp [translate_handler, ha, hempty]
    · intro htext hover
      have h1 : ¬(payload.text.length = 0) := fun h => htext (List.length_eq_zero.mp h)
      simp [translate_handler, ha, h1, hover]
    · intro htext hlen hblank
      have h1 : ¬(payload.text.length = 0) := fun h => htext (List.length_eq_zero.mp h)
      have h2 : ¬(st.config.max_text_length < payload.text.length) := not_lt.mpr hlen
      simp [translate_handler, ha, h1, h2, hblank]
    · intro htext hlen hblank v hhit
      have h1 : ¬(payload.text.length = 0) := fun h => htext (List.length_eq_zero.mp h)
      have h2 : ¬(st.config.max_text_length < payload.text.length) := not_lt.mpr hlen
      simp [translate_handler, ha, h1, h2, hblank, hhit]

theorem claim8_witness :
    (translate_handler ⟨⟨100⟩, ⟨10, 2, []⟩, ⟨60, 1, [0]⟩⟩ netOkW
      ⟨[], none, str "en"⟩ 0).status = 429 :=
  ((claim8_admission_pipeline ⟨⟨100⟩, ⟨10, 2, []⟩, ⟨60, 1, [0]⟩⟩ netOkW
    ⟨[], none, str "en"⟩ 0).1 (by decide)).1

/-- C10: an empty source string is normalized to an absent source before
any use, so a request with `source = ""` and the same request with the
source omitted produce the same cache key, the same outbound provider
request (with `source_language = none`, which serde omits), and the same
handler outcome entirely. -/
theorem claim10_empty_source (st : AppState) (net : DoubaoRequest → Except String NetReply)
    (text target : List Char) (now : Nat) :
    normalizeSource (some []) = normalizeSource none ∧
    (∀ chunk, buildDoubaoRequest chunk (normalizeSource (some [])) target
        = buildDoubaoRequest chunk (normalizeSource none) target ∧
      buildDoubaoRequest chunk (normalizeSource (some [])) target
        = { model := str "doubao-seed-translation-250915",
            input := [{ role := str "user",
                        content := [{ content_type := str "input_text",
                                      text := chunk,
                                      translation_options := some
                                        { source_language := none,
                                          target_language := target } }] }] }) ∧
    build_cache_key text (normalizeSource (some [])) target
      = build_cache_key text (normalizeSource none) target ∧
    translate_handler st net ⟨text, some [], target⟩ now
      = translate_handler st net ⟨text, none, target⟩ now := by
  refine ⟨rfl, fun chunk => ⟨rfl, rfl⟩, rfl, rfl⟩
